import Mathlib

/-!
Verification of the askvault-obsidian core against its specification.

The development shallowly embeds the TypeScript sources:
  - `VectorService` (hashing, the local fallback embedding, cosine similarity,
    the in-memory document store with upsert and top-K search),
  - `AskVaultPlugin.shouldIndexFile` / `matchesPattern` (blacklist/whitelist
    filtering with glob patterns),
  - `LLMService.callOpenAIStreamWithHistory`'s stream-parsing loop
    (newline-delimited `data: <json>` framing, Format A),
  - `ChatView.sendMessage` (per-thread chat state transition).

JavaScript machine integers are modelled as `Int` with explicit wrapping to
32 bits; JavaScript `number` arithmetic on embedding values is modelled over
`ℝ` (the float rounding of the host is outside the model, as usual for a
shallow embedding).  Host primitives (`TextDecoder`, `JSON.parse`,
`String.prototype.toLowerCase`, regular expressions) are modelled by explicit
Lean functions that follow the ECMAScript semantics at the points the claims
depend on; approximations are flagged in the corresponding doc comments.
-/

namespace AskVault

/-! ## JavaScript primitives -/

/-- `ToInt32` of ECMAScript: wrap an integer to the signed 32-bit range
`[-2^31, 2^31)`.  This is what `x & x` (and the implicit conversion before
`<<`) performs in the sources. -/
def toInt32 (n : Int) : Int :=
  (n + 2 ^ 31) % 2 ^ 32 - 2 ^ 31

/-- One step of the rolling hash `hash = ((hash << 5) - hash) + char` followed
by `hash = hash & hash` (source: `VectorService.hashCode` and
`AskVaultPlugin.calculateFileHash`).  `hash << 5` first wraps the shifted value
to 32 bits; the subtraction and addition are exact in doubles and the final
`& hash` wraps the result back to 32 bits. -/
def hashStep (h : Int) (c : Nat) : Int :=
  toInt32 (toInt32 (h * 32) - h + c)

/-- The 32-bit rolling hash of a character sequence, starting from 0
(source: `VectorService.hashCode`).  JavaScript `charCodeAt` yields UTF-16
code units; for code points below `0x10000` (all inputs considered here) this
equals the code point, which is what `Char.toNat` provides. -/
def hashChars (cs : List Char) : Int :=
  cs.foldl (fun h c => hashStep h c.toNat) 0

/-- `VectorService.hashCode(str)`. -/
def hashCode (s : String) : Int :=
  hashChars s.data

/-- ECMAScript `\s` (the class the source's `split(/\s+/)` uses): tab, line
feed, vertical tab, form feed, carriage return, space, NBSP, Ogham space mark,
the en-quad..hair-space range, LS, PS, narrow NBSP, medium mathematical space,
ideographic space and the BOM. -/
def isJsWs (c : Char) : Bool :=
  c.toNat = 0x9 ∨ c.toNat = 0xA ∨ c.toNat = 0xB ∨ c.toNat = 0xC ∨
  c.toNat = 0xD ∨ c.toNat = 0x20 ∨ c.toNat = 0xA0 ∨ c.toNat = 0x1680 ∨
  (0x2000 ≤ c.toNat ∧ c.toNat ≤ 0x200A) ∨ c.toNat = 0x2028 ∨
  c.toNat = 0x2029 ∨ c.toNat = 0x202F ∨ c.toNat = 0x205F ∨
  c.toNat = 0x3000 ∨ c.toNat = 0xFEFF

/-- `str.split(/\s+/)` of ECMAScript: the pieces between maximal whitespace
runs, including an empty piece at either end when the string starts or ends
with whitespace, and `[""]` on the empty string. -/
def splitWs (cs : List Char) : List (List Char) :=
  match cs with
  | [] => [[]]
  | c :: rest =>
    if isJsWs c then
      [] :: splitWs (rest.dropWhile isJsWs)
    else
      match splitWs rest with
      | [] => [[c]]
      | t :: ts => (c :: t) :: ts
termination_by cs.length
decreasing_by
  · simpa using
      Nat.lt_succ_of_le (List.Sublist.length_le (List.dropWhile_sublist _))
  · simp

/-- `text.toLowerCase()`.  The host lowercases per Unicode; the model lowers
the ASCII range, which is exact on all inputs the claims evaluate and is used
identically on both sides of the refinement below. -/
def toLowerChars (cs : List Char) : List Char :=
  cs.map Char.toLower

/-- `Math.abs(hash + i * 997) % 300` (source: `generateSimpleEmbedding`'s
probe-index computation; the addition is exact in doubles). -/
def probeIdx (hash : Int) (i : Nat) : Nat :=
  (hash + (i : Int) * 997).natAbs % 300

/-- `embedding[index] += 1` on a JavaScript array, for an index inside the
array (out-of-range writes do not occur: `probeIdx` is `< 300`). -/
def bump (acc : List Nat) (idx : Nat) : List Nat :=
  acc.set idx (acc.getD idx 0 + 1)

/-- The accumulation loop of `generateSimpleEmbedding`: a 300-slot array of
zeros, bumped at `probeIdx (hashChars w) i` for every word `w` and every
probe offset `i ∈ [0,5)`. -/
def accumulate (words : List (List Char)) : List Nat :=
  words.foldl
    (fun acc w =>
      (List.range 5).foldl (fun a i => bump a (probeIdx (hashChars w) i)) acc)
    (List.replicate 300 0)

/-- `Σ xᵢ²`, the `reduce((sum, val) => sum + val * val, 0)` of the source. -/
def sumSq (l : List ℝ) : ℝ :=
  (l.map fun x => x * x).sum

/-- The count array read as JavaScript numbers. -/
def natsToReals (l : List Nat) : List ℝ :=
  l.map fun v => (Nat.cast v : ℝ)

/-- The tail of `generateSimpleEmbedding`: compute the magnitude of the count
array and divide every slot by it when `magnitude > 0` (the in-place loop of
the source), returning the counts as numbers otherwise. -/
noncomputable def finishEmbedding (counts : List Nat) : List ℝ :=
  if 0 < Real.sqrt (sumSq (natsToReals counts)) then
    (natsToReals counts).map fun v => v / Real.sqrt (sumSq (natsToReals counts))
  else natsToReals counts

/-- `VectorService.generateSimpleEmbedding(text)`: lowercase, split on
whitespace runs, accumulate 5 probe counts per token into a 300-slot array,
then L2-normalize unless the magnitude is zero. -/
noncomputable def generateSimpleEmbedding (text : String) : List ℝ :=
  finishEmbedding (accumulate (splitWs (toLowerChars text.data)))

/-- The count array as the specification describes it: slot `j` of the
300-length accumulator holds, summed over tokens, the number of probe offsets
`i ∈ [0,5)` with `|hash + i·997| mod 300 = j`. -/
def specCounts (tokens : List (List Char)) : List Nat :=
  (List.range 300).map fun j =>
    (tokens.map fun w =>
      ((List.range 5).filter fun i => probeIdx (hashChars w) i = j).length).sum

/-- The specification's normalization: L2-normalize the accumulator, leaving
it untouched (no division) when its magnitude is 0. -/
noncomputable def specNormalize (counts : List Nat) : List ℝ :=
  if Real.sqrt (sumSq (natsToReals counts)) = 0 then
    natsToReals counts
  else (natsToReals counts).map fun v => v / Real.sqrt (sumSq (natsToReals counts))

/-- The reference definition of the local fallback embedding, written from the
specification's words. -/
noncomputable def specSimpleEmbedding (text : String) : List ℝ :=
  specNormalize (specCounts (splitWs (toLowerChars text.data)))

theorem toInt32_lower (n : Int) : -2 ^ 31 ≤ toInt32 n := by
  have h := Int.emod_nonneg (n + 2 ^ 31) (by norm_num : (2 ^ 32 : Int) ≠ 0)
  unfold toInt32
  omega

theorem toInt32_upper (n : Int) : toInt32 n < 2 ^ 31 := by
  have h := Int.emod_lt_of_pos (n + 2 ^ 31) (by norm_num : (0 : Int) < 2 ^ 32)
  unfold toInt32
  omega

theorem bump_length (acc : List Nat) (idx : Nat) :
    (bump acc idx).length = acc.length := by
  simp [bump]

theorem foldl_bump_length (idxs : List Nat) (acc : List Nat) :
    (idxs.foldl bump acc).length = acc.length := by
  induction idxs generalizing acc with
  | nil => rfl
  | cons i idxs ih => simp [List.foldl_cons, ih, bump_length]

theorem bump_getD (acc : List Nat) (idx j : Nat) (hj : j < acc.length) :
    (bump acc idx).getD j 0 =
      if idx = j then acc.getD j 0 + 1 else acc.getD j 0 := by
  rcases Decidable.em (idx = j) with h | h
  · subst h
    simp [bump, List.getD_eq_getElem?_getD, List.getElem?_set, hj]
  · simp [bump, List.getD_eq_getElem?_getD, List.getElem?_set, h]

theorem foldl_bump_getD (idxs : List Nat) (acc : List Nat) (j : Nat)
    (hj : j < acc.length) :
    (idxs.foldl bump acc).getD j 0 = acc.getD j 0 + idxs.count j := by
  induction idxs generalizing acc with
  | nil => simp
  | cons i idxs ih =>
    have hlen : j < (bump acc i).length := by simpa [bump_length] using hj
    rw [List.foldl_cons, ih (bump acc i) hlen, bump_getD acc i j hj,
      List.count_cons]
    rcases Decidable.em (i = j) with h | h
    · simp [h]
      omega
    · simp [h, Ne.symm h]

theorem foldl_bump_flatMap {α : Type} (l : List α) (h : α → List Nat)
    (f : α → Nat → Nat) (init : List Nat) :
    l.foldl (fun acc x => (h x).foldl (fun a i => bump a (f x i)) acc) init =
      (l.flatMap fun x => (h x).map (f x)).foldl bump init := by
  induction l generalizing init with
  | nil => rfl
  | cons x l ih =>
    simp [List.foldl_cons, List.flatMap_cons, List.foldl_append, ih,
      List.foldl_map]

theorem count_flatMap {α : Type} (l : List α) (g : α → List Nat) (j : Nat) :
    ((l.flatMap g).count j) = (l.map fun x => (g x).count j).sum := by
  induction l with
  | nil => simp
  | cons x l ih => simp [List.flatMap_cons, List.count_append, ih]

theorem count_map_probe (f : Nat → Nat) (j : Nat) :
    ((List.range 5).map f).count j =
      ((List.range 5).filter fun i => f i = j).length := by
  rw [List.count_eq_countP, List.countP_map, List.countP_eq_length_filter]
  refine congrArg List.length (List.filter_congr ?_)
  intro x _
  rcases Decidable.em (f x = j) with h | h <;> simp [h]

set_option maxRecDepth 10000 in
/-- The imperative accumulation loop of `generateSimpleEmbedding` computes, in
slot `j`, the number of `(token, probe)` pairs whose probe index is `j`. -/
theorem accumulate_eq_counts (words : List (List Char)) :
    accumulate words = specCounts words := by
  unfold accumulate specCounts
  rw [foldl_bump_flatMap]
  apply List.ext_getElem
  · simp [foldl_bump_length]
  · intro j h₁ h₂
    have hj : j < (List.replicate 300 (0 : Nat)).length := by
      simpa [foldl_bump_length] using h₁
    rw [← List.getD_eq_getElem _ 0 h₁, foldl_bump_getD _ _ _ hj]
    have hj300 : j < 300 := by simpa using hj
    rw [List.getElem_map, List.getElem_range, count_flatMap]
    have hrep : (List.replicate 300 (0 : Nat)).getD j 0 = 0 := by
      rw [List.getD_eq_getElem?_getD, List.getElem?_replicate, if_pos hj300]
      rfl
    rw [hrep, Nat.zero_add]
    exact congrArg List.sum (List.map_congr_left fun w _ => count_map_probe _ j)

/-- Claim C5: for every input text, the source's local fallback embedding
equals the reference definition written from the specification: lowercase and
whitespace-split, per-token 32-bit rolling hash, 5 probe offsets incrementing
a 300-length accumulator at `|hash + i·997| mod 300`, then L2-normalization
that leaves the all-zero accumulator untouched.  Both functions are total. -/
theorem C5_simple_embedding_refinement (text : String) :
    generateSimpleEmbedding text = specSimpleEmbedding text := by
  unfold generateSimpleEmbedding specSimpleEmbedding
  rw [accumulate_eq_counts]
  unfold finishEmbedding specNormalize
  rcases Decidable.em (Real.sqrt (sumSq (natsToReals (specCounts
      (splitWs (toLowerChars text.data))))) = 0) with h | h
  · simp only [h, lt_irrefl, if_false, if_true]
  · have hpos : 0 < Real.sqrt (sumSq (natsToReals (specCounts
        (splitWs (toLowerChars text.data))))) :=
      lt_of_le_of_ne (Real.sqrt_nonneg _) (Ne.symm h)
    simp only [hpos, if_true, h, if_false]


/-! ## Cosine similarity (`VectorService.cosineSimilarity`) -/

/-- The dot product accumulated by the source's single indexed loop (the loop
runs only after the two lengths were checked equal). -/
noncomputable def dotProd (a b : List ℝ) : ℝ :=
  ((a.zip b).map fun p => p.1 * p.2).sum

/-- `VectorService.cosineSimilarity(a, b)`: throws when the lengths differ,
returns 0 when either magnitude is 0, otherwise the normalized dot product.
A thrown `Error` is modelled as `Except.error` carrying the message. -/
noncomputable def cosineSimilarity (a b : List ℝ) : Except String ℝ :=
  if a.length ≠ b.length then .error "Vectors must have the same length"
  else if Real.sqrt (sumSq a) = 0 ∨ Real.sqrt (sumSq b) = 0 then .ok 0
  else .ok (dotProd a b / (Real.sqrt (sumSq a) * Real.sqrt (sumSq b)))

/-- Euclidean magnitude `|v|`, as the specification writes it. -/
noncomputable def vecNorm (v : List ℝ) : ℝ :=
  Real.sqrt (sumSq v)

/-- The specification's cosine value: `dot(a,b) / (|a|·|b|)`, defined as 0
when either magnitude is 0. -/
noncomputable def specCosine (a b : List ℝ) : ℝ :=
  if vecNorm a = 0 ∨ vecNorm b = 0 then 0
  else dotProd a b / (vecNorm a * vecNorm b)

theorem sumSq_nonneg (l : List ℝ) : 0 ≤ sumSq l := by
  unfold sumSq
  refine List.sum_nonneg ?_
  intro x hx
  obtain ⟨y, _, rfl⟩ := List.mem_map.mp hx
  exact mul_self_nonneg y

theorem sumSq_pos_of_mem_ne_zero {l : List ℝ} (h : ∃ x ∈ l, x ≠ 0) :
    0 < sumSq l := by
  obtain ⟨x, hx, hne⟩ := h
  have hsq : 0 < x * x := mul_self_pos.mpr hne
  have hle : x * x ≤ sumSq l := by
    unfold sumSq
    refine List.single_le_sum ?_ _ (List.mem_map.mpr ⟨x, hx, rfl⟩)
    intro y hy
    obtain ⟨z, _, rfl⟩ := List.mem_map.mp hy
    exact mul_self_nonneg z
  linarith

theorem dotProd_self (v : List ℝ) : dotProd v v = sumSq v := by
  unfold dotProd sumSq
  induction v with
  | nil => rfl
  | cons x v ih => simp [List.zip_cons_cons, ih]

theorem sumSq_replicate_zero (n : Nat) : sumSq (List.replicate n 0) = 0 := by
  unfold sumSq
  simp

/-- Shared helper: on equal-length inputs `cosineSimilarity` succeeds and
returns exactly the specification's value. -/
theorem cosineSimilarity_ok {a b : List ℝ} (h : a.length = b.length) :
    cosineSimilarity a b = .ok (specCosine a b) := by
  unfold cosineSimilarity specCosine vecNorm
  rw [if_neg (by simp [h])]
  rcases Decidable.em (Real.sqrt (sumSq a) = 0 ∨ Real.sqrt (sumSq b) = 0) with hz | hz
  · rw [if_pos hz, if_pos hz]
  · rw [if_neg hz, if_neg hz]

/-- Claim C6: on equal-length vectors, `cosineSimilarity` returns (never
throws) `dot(a,b)/(|a|·|b|)` with 0 when either magnitude is 0; on any vector
with a non-zero coordinate the self-similarity is exactly 1 (the model has no
rounding, so `≈ 1` sharpens to `= 1`); similarity against the all-zero vector
of matching length is 0. -/
theorem C6_cosine_similarity :
    (∀ a b : List ℝ, a.length = b.length →
      cosineSimilarity a b = .ok (specCosine a b)) ∧
    (∀ v : List ℝ, (∃ x ∈ v, x ≠ 0) → cosineSimilarity v v = .ok 1) ∧
    (∀ v : List ℝ, cosineSimilarity v (List.replicate v.length 0) = .ok 0) := by
  refine ⟨fun a b h => cosineSimilarity_ok h, fun v hv => ?_, fun v => ?_⟩
  · have hpos : 0 < sumSq v := sumSq_pos_of_mem_ne_zero hv
    have hs : 0 < Real.sqrt (sumSq v) := Real.sqrt_pos.mpr hpos
    unfold cosineSimilarity
    rw [if_neg (by simp), if_neg (by push_neg; exact ⟨ne_of_gt hs, ne_of_gt hs⟩)]
    rw [dotProd_self, Real.mul_self_sqrt (le_of_lt hpos)]
    exact congrArg Except.ok (div_self (ne_of_gt hpos))
  · unfold cosineSimilarity
    rw [if_neg (by simp)]
    rw [if_pos (Or.inr (by rw [sumSq_replicate_zero]; exact Real.sqrt_zero))]

/-- Witness for C6 at concrete inputs: `[3, 4]` has a non-zero coordinate and
self-similarity 1; `[3, 4]` against `[0, 0]` scores 0; `[1]` and `[2]` have
equal length so the call succeeds with the specification's value. -/
theorem C6_cosine_similarity_witness :
    cosineSimilarity [(3 : ℝ), 4] [(3 : ℝ), 4] = .ok 1 ∧
    cosineSimilarity [(3 : ℝ), 4] (List.replicate ([(3 : ℝ), 4].length) 0) = .ok 0 ∧
    cosineSimilarity [(1 : ℝ)] [(2 : ℝ)] = .ok (specCosine [(1 : ℝ)] [(2 : ℝ)]) :=
  ⟨C6_cosine_similarity.2.1 [(3 : ℝ), 4] ⟨3, by simp, by norm_num⟩,
   C6_cosine_similarity.2.2 [(3 : ℝ), 4],
   C6_cosine_similarity.1 [(1 : ℝ)] [(2 : ℝ)] (by simp)⟩

/-! ## Vector store (`VectorService`) -/

/-- A stored record: `{ path, content, summary, embedding, hash }`. -/
structure VectorDocument where
  path : String
  content : String
  summary : String
  embedding : List ℝ
  hash : String

/-- The store's state: the private `documents` array. -/
structure VectorStore where
  documents : List VectorDocument

/-- `VectorService.addDocument(path, content, summary, hash)`: embed the
summary, drop every stored document with the same path, push the new record.
`generateEmbedding` is modelled in its deterministic local-fallback branch
(the remote branch is a network call that transparently falls back to the
local strategy on any failure, and is skipped entirely unless an OpenAI key
is configured). -/
noncomputable def addDocument (s : VectorStore)
    (path content summary hash : String) : VectorStore :=
  ⟨(s.documents.filter fun d => d.path ≠ path) ++
    [⟨path, content, summary, generateSimpleEmbedding summary, hash⟩]⟩

/-- One row of a `search` result: `{ path, content, score }`. -/
structure SearchResult where
  path : String
  content : String
  score : ℝ

/-- JavaScript's `Array.prototype.map` with a callback that may throw: the
first exception aborts the whole map and propagates. -/
def mapExcept {α β ε : Type} : List α → (α → Except ε β) → Except ε (List β)
  | [], _ => .ok []
  | x :: xs, f =>
    match f x with
    | .error e => .error e
    | .ok y =>
      match mapExcept xs f with
      | .error e => .error e
      | .ok ys => .ok (y :: ys)

/-- The sort order installed by the source's comparator
`(a, b) => b.score - a.score`: `a` may precede `b` iff `b.score ≤ a.score`. -/
noncomputable def byScoreDesc (a b : SearchResult) : Bool :=
  decide (b.score ≤ a.score)

/-- `VectorService.search(query, topK)`: empty store returns `[]`; otherwise
embed the query, score every stored document by cosine similarity (an
exception from `cosineSimilarity` propagates), sort descending by score and
keep the first `topK`. -/
noncomputable def search (s : VectorStore) (query : String) (topK : Nat) :
    Except String (List SearchResult) :=
  if s.documents.length = 0 then .ok []
  else
    match mapExcept s.documents (fun d =>
        match cosineSimilarity (generateSimpleEmbedding query) d.embedding with
        | .error e => .error e
        | .ok score => .ok ⟨d.path, d.content, score⟩) with
    | .error e => .error e
    | .ok results => .ok ((results.mergeSort byScoreDesc).take topK)

/-- The score the specification assigns a stored document for a query. -/
noncomputable def scoreOf (query : String) (d : VectorDocument) : ℝ :=
  specCosine (generateSimpleEmbedding query) d.embedding

/-- The stored documents paired with their scores, in store order. -/
noncomputable def scoredList (s : VectorStore) (query : String) :
    List SearchResult :=
  s.documents.map fun d => ⟨d.path, d.content, scoreOf query d⟩

theorem accumulate_length (words : List (List Char)) :
    (accumulate words).length = 300 := by
  unfold accumulate
  rw [foldl_bump_flatMap]
  rw [foldl_bump_length]
  exact List.length_replicate 300 0

theorem generateSimpleEmbedding_length (text : String) :
    (generateSimpleEmbedding text).length = 300 := by
  unfold generateSimpleEmbedding finishEmbedding
  rcases Decidable.em (0 < Real.sqrt (sumSq (natsToReals (accumulate
      (splitWs (toLowerChars text.data)))))) with h | h
  · rw [if_pos h, List.length_map, natsToReals, List.length_map,
      accumulate_length]
  · rw [if_neg h, natsToReals, List.length_map, accumulate_length]

theorem mapExcept_ok {α β ε : Type} (xs : List α) (f : α → Except ε β)
    (g : α → β) (h : ∀ x ∈ xs, f x = .ok (g x)) :
    mapExcept xs f = .ok (xs.map g) := by
  induction xs with
  | nil => rfl
  | cons x xs ih =>
    unfold mapExcept
    rw [h x (List.mem_cons_self x xs), ih fun y hy => h y (List.mem_cons_of_mem x hy)]
    rfl

theorem mapExcept_error {α β ε : Type} (xs : List α) (f : α → Except ε β)
    (h : ∃ x ∈ xs, ∀ y, f x ≠ .ok y) :
    ∃ e, mapExcept xs f = .error e := by
  induction xs with
  | nil => simp at h
  | cons x xs ih =>
    obtain ⟨z, hz, hbad⟩ := h
    rcases hfx : f x with e | y
    · refine ⟨e, ?_⟩
      unfold mapExcept
      rw [hfx]
    · have hzxs : z ∈ xs := by
        rcases List.mem_cons.mp hz with rfl | hmem
        · exact absurd hfx (hbad y)
        · exact hmem
      obtain ⟨e, he⟩ := ih ⟨z, hzxs, hbad⟩
      refine ⟨e, ?_⟩
      unfold mapExcept
      rw [hfx, he]

/-- Shared helper: when every stored embedding has the query embedding's
dimension (300), `search` succeeds and returns the first `topK` of the
score-sorted scored list. -/
theorem search_eq_ok (s : VectorStore) (query : String) (topK : Nat)
    (hdim : ∀ d ∈ s.documents, d.embedding.length = 300) :
    search s query topK =
      .ok (((scoredList s query).mergeSort byScoreDesc).take topK) := by
  unfold search
  rcases hempty : s.documents with _ | ⟨d, ds⟩
  · simp [scoredList, hempty]
  · rw [if_neg (by simp [hempty])]
    have hmap : mapExcept (d :: ds) (fun d =>
        (match cosineSimilarity (generateSimpleEmbedding query) d.embedding with
        | .error e => .error e
        | .ok score => .ok ⟨d.path, d.content, score⟩ :
          Except String SearchResult)) =
        .ok ((d :: ds).map fun d =>
          (⟨d.path, d.content, scoreOf query d⟩ : SearchResult)) := by
      refine mapExcept_ok _ _ _ ?_
      intro x hx
      have hlen : (generateSimpleEmbedding query).length = x.embedding.length := by
        rw [generateSimpleEmbedding_length, hdim x (hempty ▸ hx)]
      rw [cosineSimilarity_ok hlen]
      rfl
    rw [hmap]
    simp [scoredList, hempty]

theorem byScoreDesc_trans (a b c : SearchResult)
    (hab : byScoreDesc a b = true) (hbc : byScoreDesc b c = true) :
    byScoreDesc a c = true := by
  unfold byScoreDesc at *
  exact decide_eq_true (le_trans (of_decide_eq_true hbc) (of_decide_eq_true hab))

theorem byScoreDesc_total (a b : SearchResult) :
    (byScoreDesc a b || byScoreDesc b a) = true := by
  unfold byScoreDesc
  rcases le_total a.score b.score with h | h <;> simp [h]

/-- Claim C3: `search` on the empty store returns `.ok []` for every query
and `k` (never an error); on any store whose embeddings all have the query
dimension it returns exactly the first `k` entries of a descending-sorted
permutation of the full scored list (the stored documents paired with their
cosine scores) — the top-`k` selection — of length `min k n`, and all `n`
entries (up to order) when `n ≤ k`. -/
theorem C3_search_contract :
    (∀ q k, search ⟨[]⟩ q k = .ok []) ∧
    (∀ s q k, (∀ d ∈ s.documents, d.embedding.length = 300) →
      ∃ all, all.Perm (scoredList s q) ∧
        List.Sorted (fun x y : SearchResult => y.score ≤ x.score) all ∧
        search s q k = .ok (all.take k) ∧
        (all.take k).length = min k s.documents.length ∧
        (s.documents.length ≤ k → all.take k = all)) := by
  constructor
  · intro q k
    unfold search
    simp
  · intro s q k hdim
    refine ⟨(scoredList s q).mergeSort byScoreDesc,
      List.mergeSort_perm (scoredList s q) byScoreDesc, ?_,
      search_eq_ok s q k hdim, ?_, ?_⟩
    · have hpw := List.sorted_mergeSort
        byScoreDesc_trans byScoreDesc_total (scoredList s q)
      exact hpw.imp fun h => of_decide_eq_true h
    · rw [List.length_take,
        (List.mergeSort_perm (scoredList s q) byScoreDesc).length_eq]
      unfold scoredList
      rw [List.length_map]
    · intro hk
      have hlen : ((scoredList s q).mergeSort byScoreDesc).length ≤ k := by
        rw [(List.mergeSort_perm (scoredList s q) byScoreDesc).length_eq]
        unfold scoredList
        rw [List.length_map]
        exact hk
      exact List.take_of_length_le hlen

/-- Witness for C3: the empty store yields `[]`, and a one-document store
with a 300-dimension embedding satisfies the dimension hypothesis. -/
theorem C3_search_contract_witness :
    search ⟨[]⟩ "query" 3 = .ok [] ∧
    (∃ all, all.Perm (scoredList ⟨[⟨"a.md", "cat dog", "cat dog",
          List.replicate 300 1, "h1"⟩]⟩ "dog") ∧
      List.Sorted (fun x y : SearchResult => y.score ≤ x.score) all ∧
      search ⟨[⟨"a.md", "cat dog", "cat dog",
          List.replicate 300 1, "h1"⟩]⟩ "dog" 3 = .ok (all.take 3) ∧
      (all.take 3).length = min 3 (VectorStore.mk [⟨"a.md", "cat dog", "cat dog",
          List.replicate 300 1, "h1"⟩]).documents.length ∧
      ((VectorStore.mk [⟨"a.md", "cat dog", "cat dog",
          List.replicate 300 1, "h1"⟩]).documents.length ≤ 3 →
        all.take 3 = all)) :=
  ⟨C3_search_contract.1 "query" 3,
   C3_search_contract.2 ⟨[⟨"a.md", "cat dog", "cat dog",
       List.replicate 300 1, "h1"⟩]⟩ "dog" 3
     (by intro d hd; rw [List.mem_singleton] at hd; subst hd;
         exact List.length_replicate 300 1)⟩

/-- A sequence of `addDocument` calls, each given as
`(path, content, summary, hash)`. -/
noncomputable def applyAdds (s : VectorStore)
    (calls : List (String × String × String × String)) : VectorStore :=
  calls.foldl (fun st c => addDocument st c.1 c.2.1 c.2.2.1 c.2.2.2) s

theorem addDocument_nodup (s : VectorStore) (p c m h : String)
    (hnd : (s.documents.map fun d => d.path).Nodup) :
    (((addDocument s p c m h).documents.map fun d => d.path).Nodup) := by
  unfold addDocument
  rw [List.map_append]
  refine List.Nodup.append ?_ (by simp) ?_
  · exact List.Nodup.sublist
      (List.Sublist.map _ (List.filter_sublist s.documents)) hnd
  · intro a ha hb
    simp only [List.map_cons, List.map_nil, List.mem_singleton] at hb
    subst hb
    obtain ⟨d, hd, hdp⟩ := List.mem_map.mp ha
    have hne := (List.mem_filter.mp hd).2
    rw [decide_eq_true_eq] at hne
    exact hne hdp

/-- Claim C4: upsert is replace-by-path.  (1) Any sequence of `addDocument`
calls preserves the at-most-one-document-per-path invariant.  (2) Adding the
same path twice leaves exactly one record for that path, carrying the second
call's content, summary, hash, and the embedding of the second summary. -/
theorem C4_upsert_replace_by_path :
    (∀ s calls, ((s.documents.map fun d => d.path).Nodup) →
      (((applyAdds s calls).documents.map fun d => d.path).Nodup)) ∧
    (∀ s p c₁ m₁ h₁ c₂ m₂ h₂,
      ((addDocument (addDocument s p c₁ m₁ h₁) p c₂ m₂ h₂).documents.filter
          fun d => d.path = p) =
        [⟨p, c₂, m₂, generateSimpleEmbedding m₂, h₂⟩]) := by
  constructor
  · intro s calls
    induction calls generalizing s with
    | nil => exact fun h => h
    | cons c calls ih =>
      intro h
      exact ih (addDocument s c.1 c.2.1 c.2.2.1 c.2.2.2)
        (addDocument_nodup s c.1 c.2.1 c.2.2.1 c.2.2.2 h)
  · intro s p c₁ m₁ h₁ c₂ m₂ h₂
    unfold addDocument
    rw [List.filter_append, List.filter_append]
    have hmid : (([(⟨p, c₁, m₁, generateSimpleEmbedding m₁, h₁⟩ :
        VectorDocument)]).filter fun d => d.path ≠ p) = [] := by
      simp
    rw [hmid, List.append_nil]
    have hfirst : (((s.documents.filter fun d => d.path ≠ p).filter
        fun d => d.path ≠ p).filter fun d => d.path = p) = [] := by
      rw [List.filter_eq_nil_iff]
      intro a ha
      have h2 := (List.mem_filter.mp ha).2
      rw [decide_eq_true_eq] at h2
      simp [h2]
    rw [hfirst]
    simp

/-- Witness for C4: starting from the empty store (duplicate-free paths), one
`addDocument` call keeps the paths duplicate-free. -/
theorem C4_upsert_replace_by_path_witness :
    (((applyAdds ⟨[]⟩ [("a.md", "text", "sum", "h1")]).documents.map
        fun d => d.path).Nodup) :=
  C4_upsert_replace_by_path.1 ⟨[]⟩ [("a.md", "text", "sum", "h1")] (by simp)

/-- Claim C9: `cosineSimilarity` throws exactly the length-mismatch error on
vectors of different lengths; consequently `search` on a non-empty store
containing an embedding of dimension ≠ 300 (the query embedding's dimension)
propagates an error, while under the all-dimensions-equal precondition the
error branch is unreachable and `search` returns a result list. -/
theorem C9_dimension_mismatch :
    (∀ a b : List ℝ, a.length ≠ b.length →
      cosineSimilarity a b = .error "Vectors must have the same length") ∧
    (∀ s q k, s.documents ≠ [] →
      (∃ d ∈ s.documents, d.embedding.length ≠ 300) →
      ∃ e, search s q k = .error e) ∧
    (∀ s q k, (∀ d ∈ s.documents, d.embedding.length = 300) →
      ∃ l, search s q k = .ok l) := by
  refine ⟨fun a b h => ?_, fun s q k hne hbad => ?_, fun s q k hdim =>
    ⟨_, search_eq_ok s q k hdim⟩⟩
  · unfold cosineSimilarity
    rw [if_pos h]
  · unfold search
    rw [if_neg (by simpa [List.length_eq_zero] using hne)]
    obtain ⟨d, hd, hdbad⟩ := hbad
    have herr : ∃ e, mapExcept s.documents (fun d =>
        (match cosineSimilarity (generateSimpleEmbedding q) d.embedding with
        | .error e => .error e
        | .ok score => .ok ⟨d.path, d.content, score⟩ :
          Except String SearchResult)) = .error e := by
      refine mapExcept_error _ _ ⟨d, hd, ?_⟩
      have hlen : (generateSimpleEmbedding q).length ≠ d.embedding.length := by
        rw [generateSimpleEmbedding_length]
        exact fun hcontra => hdbad hcontra.symm
      intro y
      unfold cosineSimilarity
      rw [if_pos hlen]
      exact fun hcontra => Except.noConfusion hcontra
    obtain ⟨e, he⟩ := herr
    refine ⟨e, ?_⟩
    rw [he]

/-- Witness for C9: vectors `[1]` and `[]` have different lengths and yield
the error; a store holding an empty embedding makes `search` fail; a store
whose single embedding has dimension 300 makes `search` succeed. -/
theorem C9_dimension_mismatch_witness :
    cosineSimilarity [(1 : ℝ)] [] = .error "Vectors must have the same length" ∧
    (∃ e, search ⟨[⟨"b.md", "text", "sum", [], "h"⟩]⟩ "q" 3 = .error e) ∧
    (∃ l, search ⟨[⟨"c.md", "text", "sum",
        List.replicate 300 1, "h"⟩]⟩ "q" 3 = .ok l) :=
  ⟨C9_dimension_mismatch.1 [(1 : ℝ)] [] (by simp),
   C9_dimension_mismatch.2.1 ⟨[⟨"b.md", "text", "sum", [], "h"⟩]⟩ "q" 3
     (by simp) ⟨⟨"b.md", "text", "sum", [], "h"⟩, by simp, by simp⟩,
   C9_dimension_mismatch.2.2 ⟨[⟨"c.md", "text", "sum",
       List.replicate 300 1, "h"⟩]⟩ "q" 3
     (by intro d hd; rw [List.mem_singleton] at hd; subst hd;
         exact List.length_replicate 300 1)⟩

/-! ## File filtering (`AskVaultPlugin.shouldIndexFile` / `matchesPattern`) -/

/-- Path normalization to forward slashes: every backslash becomes `/`. -/
def normChars (cs : List Char) : List Char :=
  cs.map fun c => if c = '\\' then '/' else c

/-- What the regex atom `.` (no `s` flag) matches in ECMAScript: any
character except the line terminators LF, CR, LS, PS.  The compiled glob uses
`.` for `?` and `.*` for `*`. -/
def jsDotMatches (c : Char) : Bool :=
  decide (c.toNat ≠ 0xA ∧ c.toNat ≠ 0xD ∧ c.toNat ≠ 0x2028 ∧ c.toNat ≠ 0x2029)

/-- The anchored regex produced by `matchesPattern`'s glob compilation,
executed over the path: `*` became `.*`, `?` became `.`, every other
character was escaped to a literal. -/
def globMatch : List Char → List Char → Bool
  | [], s => s.isEmpty
  | p :: ps, s =>
    if p = '*' then
      globMatch ps s ||
        (match s with
         | [] => false
         | c :: s2 => jsDotMatches c && globMatch (p :: ps) s2)
    else
      match s with
      | [] => false
      | c :: s2 =>
        if p = '?' then jsDotMatches c && globMatch ps s2
        else decide (p = c) && globMatch ps s2
termination_by p s => (p.length, s.length)

/-- `AskVaultPlugin.matchesPattern(filePath, pattern)`: normalize both; with
no wildcard in the pattern, exact match or suffix match after a `/`
(`endsWith('/' + pattern)`); otherwise the anchored compiled glob.  The
source tests the wildcard-free case first with the negated condition; the
branches are flipped here, which is the same function. -/
def matchesPattern (filePath pattern : String) : Bool :=
  if ((normChars pattern.data).contains '*' ||
      (normChars pattern.data).contains '?') = true then
    globMatch (normChars pattern.data) (normChars filePath.data)
  else
    decide (normChars filePath.data = normChars pattern.data) ||
      List.isSuffixOf ('/' :: normChars pattern.data) (normChars filePath.data)

/-- Declarative semantics of the compiled glob, as the amended claim states
it: literals match themselves, `?` matches one non-line-terminator character,
`*` matches any run of non-line-terminator characters. -/
inductive GlobSem : List Char → List Char → Prop where
  | nil : GlobSem [] []
  | lit {c : Char} {ps s : List Char} : c ≠ '*' → c ≠ '?' →
      GlobSem ps s → GlobSem (c :: ps) (c :: s)
  | one {c : Char} {ps s : List Char} : jsDotMatches c = true →
      GlobSem ps s → GlobSem ('?' :: ps) (c :: s)
  | star {w ps s : List Char} : (∀ c ∈ w, jsDotMatches c = true) →
      GlobSem ps s → GlobSem ('*' :: ps) (w ++ s)

/-- The glob semantics the claim literally states, with `*` matching any
characters and `?` any single character (no line-terminator exception). -/
inductive GlobSemAny : List Char → List Char → Prop where
  | nil : GlobSemAny [] []
  | lit {c : Char} {ps s : List Char} : c ≠ '*' → c ≠ '?' →
      GlobSemAny ps s → GlobSemAny (c :: ps) (c :: s)
  | one {c : Char} {ps s : List Char} :
      GlobSemAny ps s → GlobSemAny ('?' :: ps) (c :: s)
  | star {w ps s : List Char} :
      GlobSemAny ps s → GlobSemAny ('*' :: ps) (w ++ s)

theorem globMatch_nil_eq (s : List Char) : globMatch [] s = s.isEmpty := by
  rw [globMatch.eq_def]

theorem globMatch_starP_nil (ps : List Char) :
    globMatch ('*' :: ps) [] = globMatch ps [] := by
  rw [globMatch.eq_def]
  simp

theorem globMatch_starP_cons (ps : List Char) (c : Char) (s2 : List Char) :
    globMatch ('*' :: ps) (c :: s2) =
      (globMatch ps (c :: s2) || (jsDotMatches c && globMatch ('*' :: ps) s2)) := by
  rw [globMatch.eq_def]
  simp

theorem globMatch_litP_nil (p : Char) (ps : List Char) (hp : p ≠ '*') :
    globMatch (p :: ps) [] = false := by
  rw [globMatch.eq_def]
  simp [hp]

theorem globMatch_qP_cons (ps : List Char) (c : Char) (s2 : List Char) :
    globMatch ('?' :: ps) (c :: s2) = (jsDotMatches c && globMatch ps s2) := by
  rw [globMatch.eq_def]
  simp

theorem globMatch_litP_cons (p : Char) (ps : List Char) (c : Char)
    (s2 : List Char) (hp : p ≠ '*') (hq : p ≠ '?') :
    globMatch (p :: ps) (c :: s2) = (decide (p = c) && globMatch ps s2) := by
  rw [globMatch.eq_def]
  simp [hp, hq]

theorem globMatch_star (ps s w : List Char)
    (hw : ∀ c ∈ w, jsDotMatches c = true) (h : globMatch ps s = true) :
    globMatch ('*' :: ps) (w ++ s) = true := by
  induction w with
  | nil =>
    rcases s with _ | ⟨c, s2⟩
    · rw [List.nil_append, globMatch_starP_nil, h]
    · rw [List.nil_append, globMatch_starP_cons, h, Bool.true_or]
  | cons c w ih =>
    have hc := hw c (List.mem_cons_self c w)
    have hrest := ih fun d hd => hw d (List.mem_cons_of_mem c hd)
    rw [List.cons_append, globMatch_starP_cons, hc, hrest]
    simp

theorem globMatch_of_sem {ps s : List Char} (h : GlobSem ps s) :
    globMatch ps s = true := by
  induction h with
  | nil => rw [globMatch_nil_eq]; rfl
  | lit hstar hq _ ih =>
    rw [globMatch_litP_cons _ _ _ _ hstar hq, ih]
    simp
  | one hdot _ ih =>
    rw [globMatch_qP_cons, hdot, ih]
    rfl
  | star hw _ ih => exact globMatch_star _ _ _ hw ih

theorem sem_of_globMatch : ∀ ps s : List Char,
    globMatch ps s = true → GlobSem ps s := by
  intro ps s
  induction ps, s using globMatch.induct with
  | case1 s =>
    intro h
    rw [globMatch_nil_eq, List.isEmpty_iff] at h
    rw [h]
    exact GlobSem.nil
  | case2 ps s ih1 ih2 =>
    intro h
    rcases s with _ | ⟨c, s2⟩
    · rw [globMatch_starP_nil] at h
      exact GlobSem.star (w := []) (by simp) (ih1 h)
    · rw [globMatch_starP_cons, Bool.or_eq_true, Bool.and_eq_true] at h
      rcases h with h | ⟨hc, h⟩
      · exact GlobSem.star (w := []) (by simp) (ih1 h)
      · have hsem := ih2 h
        cases hsem with
        | lit hstar _ _ => exact absurd rfl hstar
        | star hw hrest =>
          rename_i w s'
          exact List.cons_append c w s' ▸
            @GlobSem.star (c :: w) ps s'
              (fun d hd => by
                rcases List.mem_cons.mp hd with rfl | hdw
                · exact hc
                · exact hw d hdw)
              hrest
  | case3 p ps hstar =>
    intro h
    rw [globMatch_litP_nil p ps hstar] at h
    exact absurd h (by simp)
  | case4 ps c s2 hq ih =>
    intro h
    rw [globMatch_qP_cons, Bool.and_eq_true] at h
    exact GlobSem.one h.1 (ih h.2)
  | case5 p ps hstar c s2 hq ih =>
    intro h
    rw [globMatch_litP_cons p ps c s2 hstar hq, Bool.and_eq_true,
      decide_eq_true_eq] at h
    exact h.1 ▸ GlobSem.lit hstar hq (ih h.2)

/-- The filter lists of the plugin settings used by `shouldIndexFile`. -/
structure FilterSettings where
  blacklistFiles : List String
  whitelistExtensions : List String
  whitelistFolders : List String

/-- `path.substring(0, path.lastIndexOf('/'))` of the source's folder check:
everything before the last slash, the empty string when there is no slash
(`lastIndexOf` returns -1 and `substring` clamps). -/
def jsSubstringToLastSlash (cs : List Char) : List Char :=
  (((cs.reverse.dropWhile fun c => c ≠ '/').drop 1)).reverse

/-- The folder-whitelist test: the path starts with `folder + '/'` (or the
dead `folder + '\\'` variant — both sides were already normalized), or the
folder equals the path's parent directory. -/
def folderWhitelisted (folders : List String) (filePath : String) : Bool :=
  folders.any fun folder =>
    List.isPrefixOf (normChars folder.data ++ ['/']) (normChars filePath.data) ||
    List.isPrefixOf (normChars folder.data ++ ['\\']) (normChars filePath.data) ||
    decide (normChars folder.data = jsSubstringToLastSlash (normChars filePath.data))

/-- `AskVaultPlugin.shouldIndexFile(filePath, extension)`: blacklist first
(any match excludes unconditionally; the `length > 0` guard in the source is
equivalent to `any` over the possibly-empty list), then the extension
whitelist (a non-empty list must contain `'.' + extension` literally), then
the folder whitelist. -/
def shouldIndexFile (st : FilterSettings) (filePath extension : String) : Bool :=
  if st.blacklistFiles.any fun pat => matchesPattern filePath pat then false
  else if 0 < st.whitelistExtensions.length ∧
      ¬ st.whitelistExtensions.contains ("." ++ extension) = true then false
  else if 0 < st.whitelistFolders.length ∧
      ¬ folderWhitelisted st.whitelistFolders filePath = true then false
  else true

/-- The pattern-matching semantics of the amended claim C7: on a wildcard-free
pattern, exact equality of the normalized paths or a suffix match after a
path separator; on a pattern containing `*` or `?`, the anchored glob in
which `*` matches any run of non-line-terminator characters and `?` one
non-line-terminator character. -/
def specMatchesPattern (filePath pattern : String) : Prop :=
  if ((normChars pattern.data).contains '*' ||
      (normChars pattern.data).contains '?') = true then
    GlobSem (normChars pattern.data) (normChars filePath.data)
  else
    normChars filePath.data = normChars pattern.data ∨
      ∃ pre, normChars filePath.data = pre ++ '/' :: normChars pattern.data

unseal globMatch in
/-- Counterexample to claim C7 as stated: the claim's glob semantics — `?`
matches any single character — matches path `"\n"` against blacklist pattern
`"?"`, but the code's `matchesPattern` rejects it, because the compiled
JavaScript regex `^.$` does not let `.` match a line terminator. -/
theorem C7_glob_any_char_counterexample :
    GlobSemAny (normChars "?".data) (normChars "\n".data) ∧
    ((normChars "?".data).contains '*' ||
      (normChars "?".data).contains '?') = true ∧
    matchesPattern "\n" "?" = false :=
  ⟨GlobSemAny.one GlobSemAny.nil, by decide, by decide⟩

unseal globMatch in
theorem matchesPattern_excalidraw :
    matchesPattern "Drawing.excalidraw.md" "*.excalidraw.md" = true ∧
    matchesPattern "Drawing.md" "*.excalidraw.md" = false := by
  constructor
  · decide
  · decide

/-- Amended claim C7: the blacklist is applied first and any match excludes
unconditionally; `matchesPattern` is exactly exact-or-suffix matching for
wildcard-free patterns and the anchored glob otherwise, where `*` and `?`
match any characters except the ECMAScript line terminators; in particular
`*.excalidraw.md` excludes `Drawing.excalidraw.md` but not `Drawing.md`. -/
theorem C7_blacklist_filtering :
    (∀ st path ext, (∃ pat ∈ st.blacklistFiles, matchesPattern path pat = true) →
      shouldIndexFile st path ext = false) ∧
    (∀ path pat, matchesPattern path pat = true ↔ specMatchesPattern path pat) ∧
    (matchesPattern "Drawing.excalidraw.md" "*.excalidraw.md" = true ∧
      matchesPattern "Drawing.md" "*.excalidraw.md" = false) := by
  refine ⟨fun st path ext h => ?_, fun path pat => ?_,
    matchesPattern_excalidraw.1, matchesPattern_excalidraw.2⟩
  · unfold shouldIndexFile
    rw [if_pos (List.any_eq_true.mpr (by
      obtain ⟨pat, hmem, hmatch⟩ := h
      exact ⟨pat, hmem, hmatch⟩))]
  · unfold matchesPattern specMatchesPattern
    rcases Decidable.em ((((normChars pat.data).contains '*' ||
        (normChars pat.data).contains '?') = true)) with hw | hw
    · rw [if_pos hw, if_pos hw]
      exact ⟨sem_of_globMatch _ _, globMatch_of_sem⟩
    · rw [if_neg hw, if_neg hw]
      rw [Bool.or_eq_true, decide_eq_true_eq, List.isSuffixOf_iff_suffix]
      constructor
      · rintro (heq | ⟨pre, hpre⟩)
        · exact Or.inl heq
        · exact Or.inr ⟨pre, hpre.symm⟩
      · rintro (heq | ⟨pre, hpre⟩)
        · exact Or.inl heq
        · exact Or.inr ⟨pre, hpre.symm⟩

unseal globMatch in
/-- Witness for C7's amended theorem: a settings object blacklisting
`*.excalidraw.md` excludes `Drawing.excalidraw.md` whatever the whitelists
say. -/
theorem C7_blacklist_filtering_witness :
    shouldIndexFile ⟨["*.excalidraw.md"], [".md"], ["notes"]⟩
      "Drawing.excalidraw.md" "md" = false :=
  C7_blacklist_filtering.1 ⟨["*.excalidraw.md"], [".md"], ["notes"]⟩
    "Drawing.excalidraw.md" "md"
    ⟨"*.excalidraw.md", by simp, by decide⟩

/-! ## Format-A stream parsing (`LLMService.callOpenAIStreamWithHistory`)

The read loop decodes each network chunk, splits **that chunk alone** on
newlines, and processes every piece that starts with `data: ` by JSON-parsing
its payload and appending `choices[0].delta.content` when truthy.  There is no
carry-over buffer between chunks.  `JSON.parse` is a host primitive; it is
modelled by an explicit JSON parser below (numbers are kept as their lexemes;
`\uXXXX` escapes map to the code point, which agrees with the host away from
surrogate pairs). -/

/-- JavaScript object values produced by `JSON.parse`. -/
inductive Json where
  | null
  | bool (b : Bool)
  | num (raw : String)
  | str (s : String)
  | arr (elems : List Json)
  | obj (members : List (String × Json))

/-- `{` (written via its code point to keep braces out of the text). -/
def lbrace : Char := Char.ofNat 0x7B

/-- `}` -/
def rbrace : Char := Char.ofNat 0x7D

/-- JSON insignificant whitespace: space, tab, line feed, carriage return. -/
def isJsonWs (c : Char) : Bool :=
  c = ' ' || c = '\t' || c = '\n' || c = '\r'

def skipJsonWs (cs : List Char) : List Char :=
  cs.dropWhile isJsonWs

def hexVal (c : Char) : Option Nat :=
  if '0' ≤ c ∧ c ≤ '9' then some (c.toNat - 48)
  else if 'a' ≤ c ∧ c ≤ 'f' then some (c.toNat - 87)
  else if 'A' ≤ c ∧ c ≤ 'F' then some (c.toNat - 55)
  else none

/-- The single-character JSON escapes. -/
def escChar (c : Char) : Option Char :=
  if c = '"' then some '"'
  else if c = '\\' then some '\\'
  else if c = '/' then some '/'
  else if c = 'b' then some (Char.ofNat 8)
  else if c = 'f' then some (Char.ofNat 12)
  else if c = 'n' then some '\n'
  else if c = 'r' then some '\r'
  else if c = 't' then some '\t'
  else none

/-- Parse a JSON string body after the opening quote; returns the decoded
content and the input after the closing quote.  Raw control characters are
invalid; `\uXXXX` yields the corresponding code point. -/
def parseJsonString (cs : List Char) : Option (List Char × List Char) :=
  match cs with
  | [] => none
  | c :: rest =>
    if c = '"' then some ([], rest)
    else if c = '\\' then
      match rest with
      | [] => none
      | e :: rest2 =>
        if e = 'u' then
          match rest2 with
          | h1 :: h2 :: h3 :: h4 :: rest3 =>
            match hexVal h1, hexVal h2, hexVal h3, hexVal h4 with
            | some a, some b, some c3, some d =>
              match parseJsonString rest3 with
              | some (content, r) =>
                some (Char.ofNat (((a * 16 + b) * 16 + c3) * 16 + d) :: content, r)
              | none => none
            | _, _, _, _ => none
          | _ => none
        else
          match escChar e with
          | some ec =>
            match parseJsonString rest2 with
            | some (content, r) => some (ec :: content, r)
            | none => none
          | none => none
    else if c.toNat < 0x20 then none
    else
      match parseJsonString rest with
      | some (content, r) => some (c :: content, r)
      | none => none
termination_by cs.length
decreasing_by all_goals simp_arith

/-- The integer part of a JSON number: `0` or a nonzero digit followed by
digits (leading zeros are invalid, as in `JSON.parse`). -/
def lexInt (cs : List Char) : Option (List Char × List Char) :=
  match cs with
  | [] => none
  | c :: r =>
    if c = '0' then some (['0'], r)
    else if c.isDigit then
      some (c :: r.takeWhile Char.isDigit, r.dropWhile Char.isDigit)
    else none

/-- The optional fraction part: `.` followed by at least one digit. -/
def lexFrac (cs : List Char) : Option (List Char × List Char) :=
  match cs with
  | '.' :: r =>
    if r.takeWhile Char.isDigit = [] then none
    else some ('.' :: r.takeWhile Char.isDigit, r.dropWhile Char.isDigit)
  | _ => some ([], cs)

/-- The optional exponent part: `e`/`E`, optional sign, at least one digit. -/
def lexExp (cs : List Char) : Option (List Char × List Char) :=
  match cs with
  | [] => some ([], [])
  | e :: r =>
    if e = 'e' ∨ e = 'E' then
      match r with
      | c :: r2 =>
        if c = '+' ∨ c = '-' then
          if r2.takeWhile Char.isDigit = [] then none
          else some (e :: c :: r2.takeWhile Char.isDigit, r2.dropWhile Char.isDigit)
        else if (c :: r2).takeWhile Char.isDigit = [] then none
        else some (e :: (c :: r2).takeWhile Char.isDigit, (c :: r2).dropWhile Char.isDigit)
      | [] => none
    else some ([], e :: r)

/-- Lex a JSON number, returning its lexeme and the rest of the input. -/
def lexNumber (cs : List Char) : Option (List Char × List Char) := do
  let (neg, cs1) := match cs with
    | '-' :: r => ((['-'] : List Char), r)
    | _ => (([] : List Char), cs)
  let (ip, cs2) ← lexInt cs1
  let (fp, cs3) ← lexFrac cs2
  let (ep, cs4) ← lexExp cs3
  pure (neg ++ ip ++ fp ++ ep, cs4)

def dropLit (lit : List Char) (cs : List Char) : Option (List Char) :=
  if lit.isPrefixOf cs then some (cs.drop lit.length) else none

mutual

/-- Parse one JSON value (after skipping leading whitespace), fuel-bounded. -/
def parseVal : Nat → List Char → Option (Json × List Char)
  | 0, _ => none
  | fuel + 1, cs =>
    match skipJsonWs cs with
    | [] => none
    | c :: rest =>
      if c = lbrace then parseObjBody fuel rest
      else if c = '[' then parseArrBody fuel rest
      else if c = '"' then
        match parseJsonString rest with
        | some (content, r) => some (.str (String.mk content), r)
        | none => none
      else if c = 't' then
        match dropLit ['r', 'u', 'e'] rest with
        | some r => some (.bool true, r)
        | none => none
      else if c = 'f' then
        match dropLit ['a', 'l', 's', 'e'] rest with
        | some r => some (.bool false, r)
        | none => none
      else if c = 'n' then
        match dropLit ['u', 'l', 'l'] rest with
        | some r => some (.null, r)
        | none => none
      else
        match lexNumber (c :: rest) with
        | some (lexeme, r) => some (.num (String.mk lexeme), r)
        | none => none

/-- After `[`: the empty array or its comma-separated elements. -/
def parseArrBody : Nat → List Char → Option (Json × List Char)
  | 0, _ => none
  | fuel + 1, cs =>
    match skipJsonWs cs with
    | ']' :: rest => some (.arr [], rest)
    | cs2 =>
      match parseElems fuel cs2 with
      | some (elems, rest) => some (.arr elems, rest)
      | none => none

/-- One or more comma-separated array elements up to the closing bracket. -/
def parseElems : Nat → List Char → Option (List Json × List Char)
  | 0, _ => none
  | fuel + 1, cs =>
    match parseVal fuel cs with
    | none => none
    | some (v, rest) =>
      match skipJsonWs rest with
      | ',' :: rest2 =>
        match parseElems fuel rest2 with
        | some (vs, rest3) => some (v :: vs, rest3)
        | none => none
      | ']' :: rest2 => some ([v], rest2)
      | _ => none

/-- After the opening brace: the empty object or its members. -/
def parseObjBody : Nat → List Char → Option (Json × List Char)
  | 0, _ => none
  | fuel + 1, cs =>
    match skipJsonWs cs with
    | [] => none
    | c :: rest =>
      if c = rbrace then some (.obj [], rest)
      else
        match parseMembers fuel (c :: rest) with
        | some (ms, rest2) => some (.obj ms, rest2)
        | none => none

/-- One or more `"key": value` members up to the closing brace. -/
def parseMembers : Nat → List Char → Option (List (String × Json) × List Char)
  | 0, _ => none
  | fuel + 1, cs =>
    match skipJsonWs cs with
    | '"' :: rest =>
      match parseJsonString rest with
      | none => none
      | some (key, rest2) =>
        match skipJsonWs rest2 with
        | ':' :: rest3 =>
          match parseVal fuel rest3 with
          | none => none
          | some (v, rest4) =>
            match skipJsonWs rest4 with
            | [] => none
            | c :: rest5 =>
              if c = ',' then
                match parseMembers fuel rest5 with
                | some (ms, rest6) => some ((String.mk key, v) :: ms, rest6)
                | none => none
              else if c = rbrace then some ([(String.mk key, v)], rest5)
              else none
        | _ => none
    | _ => none

end

/-- `JSON.parse(s)`: parse one value with surrounding whitespace; anything
else is a syntax error (`none`).  The fuel is an upper bound on the number of
parser steps, each of which consumes input. -/
def parseJson (s : String) : Option Json :=
  match parseVal (4 * s.data.length + 8) s.data with
  | some (j, rest) => if (skipJsonWs rest).isEmpty then some j else none
  | none => none

/-- Duplicate keys in a JSON object: the last binding wins, as in the object
`JSON.parse` builds. -/
def lookupLastField (ms : List (String × Json)) (k : String) : Option Json :=
  match ms with
  | [] => none
  | (k2, v) :: rest =>
    match lookupLastField rest k with
    | some r => some r
    | none => if k2 = k then some v else none

/-- JavaScript member access `x.k` on a parsed value, as used under optional
chaining: objects yield the field (or `undefined`), every non-object yields
`undefined`/throws — all of which the enclosing `try` turns into a skipped
line, so every failure mode is `none`. -/
def getMember (j : Json) (k : String) : Option Json :=
  match j with
  | .obj ms => lookupLastField ms k
  | _ => none

/-- `x?.[0]` as used in the chain: the first element of an array.  (Indexing
a string would yield a one-character string whose `.delta` is `undefined`;
collapsing that to `none` one step earlier is the same overall outcome.) -/
def getIndexZero (j : Json) : Option Json :=
  match j with
  | .arr (x :: _) => some x
  | _ => none

/-- `parsed.choices?.[0]?.delta?.content` of the Format-A handler. -/
def extractContentA (j : Json) : Option Json :=
  match getMember j "choices" with
  | none => none
  | some c =>
    match getIndexZero c with
    | none => none
    | some c0 =>
      match getMember c0 "delta" with
      | none => none
      | some d => getMember d "content"

/-- Whether a JSON number lexeme denotes 0: every digit before the exponent
is `0`. -/
def jsonNumIsZero (raw : String) : Bool :=
  (raw.data.takeWhile fun c => c ≠ 'e' ∧ c ≠ 'E').all fun c =>
    ¬c.isDigit ∨ c = '0'

/-- ECMAScript truthiness of a parsed JSON value, for `if (content)`. -/
def jsTruthy (j : Json) : Bool :=
  match j with
  | .null => false
  | .bool b => b
  | .str s => decide (s ≠ "")
  | .num raw => !jsonNumIsZero raw
  | .arr _ => true
  | .obj _ => true

def isNullJson (j : Json) : Bool :=
  match j with
  | .null => true
  | _ => false

/-- `String(x)` for `fullText += content`.  Strings are exact; numbers are
approximated by their lexeme (host float formatting is outside the model;
the protocol's `content` is a string); arrays join their elements with `,`
(`null` elements become empty); objects print as `[object Object]`. -/
def jsToString (j : Json) : String :=
  match j with
  | .null => "null"
  | .bool true => "true"
  | .bool false => "false"
  | .num raw => raw
  | .str s => s
  | .obj _ => "[object Object]"
  | .arr elems =>
    String.intercalate "," (elems.attach.map fun e =>
      if isNullJson e.1 then "" else jsToString e.1)
decreasing_by
  have h := List.sizeOf_lt_of_mem e.2
  simp only [Json.arr.sizeOf_spec]
  omega

/-- `chunk.split('\n')`: split on every newline, keeping empty pieces, with
`[""]` on the empty string. -/
def splitOnNl (cs : List Char) : List (List Char) :=
  match cs with
  | [] => [[]]
  | c :: rest =>
    if c = '\n' then [] :: splitOnNl rest
    else
      match splitOnNl rest with
      | [] => [[c]]
      | t :: ts => (c :: t) :: ts

/-- The per-line step of the Format-A parse loop: only `data: ` lines count;
`[DONE]` is the end sentinel; a payload that fails to parse (or lacks a
truthy `choices[0].delta.content`) is skipped silently. -/
def processLine (fullText : List Char) (line : List Char) : List Char :=
  if "data: ".data.isPrefixOf line then
    if line.drop 6 = "[DONE]".data then fullText
    else
      match parseJson (String.mk (line.drop 6)) with
      | none => fullText
      | some parsed =>
        match extractContentA parsed with
        | none => fullText
        | some content =>
          if jsTruthy content then fullText ++ (jsToString content).data
          else fullText
  else fullText

/-- The read loop of `callOpenAIStreamWithHistory` over the decoded chunks of
the response body: each chunk is split on `\n` **by itself** and its lines
are processed; nothing is carried from one chunk to the next.  (The
`TextDecoder` with `stream: true` re-assembles code points split across byte
boundaries, so a byte-level chunking of the wire stream reaches this loop as
a list of strings concatenating to the full stream text, split at arbitrary
character offsets.) -/
def parseOpenAIStream (chunks : List String) : String :=
  String.mk (chunks.foldl
    (fun fullText chunk => (splitOnNl chunk.data).foldl processLine fullText)
    [])

unseal parseJsonString jsToString in
/-- Claim C1 fails on the code: the same Format-A byte stream fed unsplit
accumulates `"hi"`, but fed as two chunks split in the middle of its
`data: ` line accumulates `""` — the loop splits each chunk on newlines by
itself, so the first fragment's payload is malformed JSON (silently skipped)
and the second fragment does not start with `data: ` (skipped).  The third
conjunct checks that the two chunks concatenate to the unsplit stream. -/
theorem C1_chunk_split_divergence :
    parseOpenAIStream
      ["data: \x7b\"choices\":[\x7b\"delta\":\x7b\"content\":\"hi\"\x7d\x7d]\x7d\ndata: [DONE]\n"] =
      "hi" ∧
    parseOpenAIStream
      ["data: \x7b\"cho",
       "ices\":[\x7b\"delta\":\x7b\"content\":\"hi\"\x7d\x7d]\x7d\ndata: [DONE]\n"] =
      "" ∧
    "data: \x7b\"cho" ++
        "ices\":[\x7b\"delta\":\x7b\"content\":\"hi\"\x7d\x7d]\x7d\ndata: [DONE]\n" =
      "data: \x7b\"choices\":[\x7b\"delta\":\x7b\"content\":\"hi\"\x7d\x7d]\x7d\ndata: [DONE]\n" := by
  refine ⟨by decide, by decide, by decide⟩

/-! ## Chat threads and `ChatView.sendMessage`

The send path of the streaming `ChatView` (the second, streaming revision of
the class).  The two awaited external calls — `vectorService.search` and
`llmService.chatStream` — are modelled by their outcomes, supplied as an
environment; everything else is the source's own control flow.  UI-only
effects (`addUserMessage`, the loading indicator, `addSystemMessage`,
`setInputState`) do not touch the persisted state and are not part of the
state type. -/

/-- `{ role, content }`. -/
structure ChatMessage where
  role : String
  content : String
deriving DecidableEq

/-- `ChatThread`: the optional `isStreaming` field is represented as a
`Bool` (absent ≡ `false`). -/
structure ChatThread where
  id : String
  name : String
  history : List ChatMessage
  createdAt : Nat
  updatedAt : Nat
  isStreaming : Bool
deriving DecidableEq

/-- The `ChatView` fields sendMessage reads and writes: the thread list, the
active thread id, the `streamingThreads` map (as an association list) and the
input box's current value. -/
structure ChatViewState where
  threads : List ChatThread
  currentThreadId : Option String
  streamingThreads : List (String × Bool)
  inputValue : String
deriving DecidableEq

/-- `message.trim()`: strip ECMAScript whitespace from both ends. -/
def jsTrim (s : String) : String :=
  String.mk (((s.data.dropWhile isJsWs).reverse.dropWhile isJsWs).reverse)

/-- `getCurrentThread()`: `null` when `currentThreadId` is falsy (absent or
the empty string), else the first thread with that id (or `null`). -/
def getCurrentThread (st : ChatViewState) : Option ChatThread :=
  match st.currentThreadId with
  | none => none
  | some tid => if tid = "" then none else st.threads.find? fun t => t.id = tid

/-- `Map.prototype.set`: replace the binding of `k`, or append it. -/
def setFlag (m : List (String × Bool)) (k : String) (v : Bool) :
    List (String × Bool) :=
  match m with
  | [] => [(k, v)]
  | (k2, v2) :: rest =>
    if k2 = k then (k, v) :: rest else (k2, v2) :: setFlag rest k v

/-- `Map.prototype.get`: `none` plays `undefined`. -/
def getFlag (m : List (String × Bool)) (k : String) : Option Bool :=
  match m.find? fun p => p.1 = k with
  | some p => some p.2
  | none => none

/-- Mutation through the reference `find` returned: the first thread with
this id is replaced by `f` of it; everything else is untouched. -/
def updateThread (threads : List ChatThread) (tid : String)
    (f : ChatThread → ChatThread) : List ChatThread :=
  match threads with
  | [] => []
  | t :: rest => if t.id = tid then f t :: rest else t :: updateThread rest tid f

/-- The first thread with the given id. -/
def findThread (threads : List ChatThread) (tid : String) : Option ChatThread :=
  threads.find? fun t => t.id = tid

/-- `/^Chat \d+$/.test(name)`: the auto-generated default name pattern. -/
def isDefaultName (s : String) : Bool :=
  "Chat ".data.isPrefixOf s.data &&
  !(s.data.drop 5).isEmpty && (s.data.drop 5).all Char.isDigit

/-- The new thread name:
`message.length > 50 ? message.substring(0, 47) + '...' : message`. -/
def autoRenameName (message : String) : String :=
  if 50 < message.length then String.mk (message.data.take 47) ++ "..."
  else message

/-- `path.replace(/\.md$/, '')` of the sources section. -/
def stripMdSuffix (path : String) : String :=
  if ".md".data.isSuffixOf path.data then
    String.mk (path.data.take (path.data.length - 3))
  else path

/-- The deterministic sources section appended to the streamed answer. -/
def buildSourcesText (docs : List SearchResult) : String :=
  docs.foldl
    (fun acc doc => acc ++ "- [[" ++ stripMdSuffix doc.path ++ "]]\n")
    "\n\n---\n\n**Sources:**\n\n"

/-- Outcomes of the two awaited external calls and the `Date.now()` value
read on success. -/
structure SendEnv where
  searchResult : Except String (List SearchResult)
  llmResult : Except String String
  now : Nat

/-- The state after `sendMessage` plus whether a completion request was
submitted to the backend. -/
structure SendOutcome where
  state : ChatViewState
  llmRequested : Bool

/-- The auto-rename step: when the thread's history is empty and its name
still matches `Chat N`, set the name from the trimmed message. -/
def applyRename (st : ChatViewState) (t : ChatThread) : ChatViewState :=
  if t.history.isEmpty && isDefaultName t.name then
    { st with
        threads :=
          updateThread st.threads t.id
            (fun th => { th with name := autoRenameName (jsTrim st.inputValue) }) }
  else st

/-- Clear the input box, set the `streamingThreads` marker and the thread's
`isStreaming` flag. -/
def startStreaming (st : ChatViewState) (tid : String) : ChatViewState :=
  { st with
    inputValue := "",
    streamingThreads := setFlag st.streamingThreads tid true,
    threads :=
      updateThread st.threads tid (fun th => { th with isStreaming := true }) }

/-- The `finally` block: both streaming markers are cleared. -/
def clearStreaming (st : ChatViewState) (tid : String) : ChatViewState :=
  { st with
    streamingThreads := setFlag st.streamingThreads tid false,
    threads :=
      updateThread st.threads tid (fun th => { th with isStreaming := false }) }

/-- The history append and `updatedAt` bump of the success path (followed by
`saveThreads`, which persists the state — the model's state is that
persisted value). -/
def appendHistory (st : ChatViewState) (tid : String)
    (userMsg assistMsg : String) (now : Nat) : ChatViewState :=
  { st with
      threads :=
        updateThread st.threads tid
          (fun th =>
            { th with
              history := th.history ++
                [⟨"user", userMsg⟩, ⟨"assistant", assistMsg⟩],
              updatedAt := now }) }

/-- The body of `sendMessage` after its two early returns: rename, mark the
thread streaming, then run the `try`/`catch`/`finally`: a search error or an
empty retrieval or a stream error leaves the history untouched; on success
the user and assistant messages (the latter with the sources section) are
appended.  Every path runs the `finally`. -/
def sendMessageBody (st : ChatViewState) (env : SendEnv) (t : ChatThread) :
    SendOutcome :=
  let st2 := startStreaming (applyRename st t) t.id
  match env.searchResult with
  | .error _ => ⟨clearStreaming st2 t.id, false⟩
  | .ok docs =>
    if docs.isEmpty then ⟨clearStreaming st2 t.id, false⟩
    else
      match env.llmResult with
      | .error _ => ⟨clearStreaming st2 t.id, true⟩
      | .ok response =>
        ⟨clearStreaming
          (appendHistory st2 t.id (jsTrim st.inputValue)
            (response ++ buildSourcesText docs) env.now) t.id, true⟩

/-- `ChatView.sendMessage()`: reject the empty (trimmed) input and the
missing current thread; otherwise run the send path.  There is no check of
the thread's streaming flag anywhere in the function. -/
def sendMessage (st : ChatViewState) (env : SendEnv) : SendOutcome :=
  if jsTrim st.inputValue = "" then ⟨st, false⟩
  else
    match getCurrentThread st with
    | none => ⟨st, false⟩
    | some currentThread => sendMessageBody st env currentThread

/-- The name `sendMessage` leaves on the current thread: renamed from the
message iff the history was empty and the name still matched `Chat N`. -/
def renamedName (st : ChatViewState) (t : ChatThread) : String :=
  if t.history.isEmpty && isDefaultName t.name then
    autoRenameName (jsTrim st.inputValue)
  else t.name

theorem findThread_updateThread (threads : List ChatThread) (tid : String)
    (f : ChatThread → ChatThread) (hid : ∀ x, (f x).id = x.id) :
    findThread (updateThread threads tid f) tid =
      (findThread threads tid).map f := by
  induction threads with
  | nil => rfl
  | cons t rest ih =>
    unfold updateThread findThread
    rcases Decidable.em (t.id = tid) with h | h
    · rw [if_pos h]
      rw [List.find?_cons_of_pos _ (by simp [hid, h]),
        List.find?_cons_of_pos _ (by simp [h])]
      rfl
    · rw [if_neg h]
      rw [List.find?_cons_of_neg _ (by simp [h]),
        List.find?_cons_of_neg _ (by simp [h])]
      exact ih

theorem getFlag_setFlag (m : List (String × Bool)) (k : String) (v : Bool) :
    getFlag (setFlag m k v) k = some v := by
  induction m with
  | nil => simp [setFlag, getFlag, List.find?]
  | cons p rest ih =>
    unfold setFlag
    rcases Decidable.em (p.1 = k) with h | h
    · rw [if_pos h]
      simp [getFlag, List.find?]
    · rw [if_neg h]
      unfold getFlag at ih ⊢
      rw [List.find?_cons_of_neg _ (by simp [h])]
      exact ih

theorem getCurrentThread_findThread {st : ChatViewState} {t : ChatThread}
    (h : getCurrentThread st = some t) : findThread st.threads t.id = some t := by
  rcases hcid : st.currentThreadId with _ | tid
  · have h2 : getCurrentThread st = none := by
      unfold getCurrentThread
      rw [hcid]
    rw [h2] at h
    exact Option.noConfusion h
  · rcases Decidable.em (tid = "") with he | he
    · have h2 : getCurrentThread st = none := by
        unfold getCurrentThread
        rw [hcid]
        show (if tid = "" then none
          else st.threads.find? fun t => t.id = tid) = none
        rw [if_pos he]
      rw [h2] at h
      exact Option.noConfusion h
    · have h2 : getCurrentThread st = st.threads.find? fun t => t.id = tid := by
        unfold getCurrentThread
        rw [hcid]
        show (if tid = "" then none
          else st.threads.find? fun t => t.id = tid) =
          st.threads.find? fun t => t.id = tid
        rw [if_neg he]
      rw [h2] at h
      have hp := List.find?_some h
      simp only [decide_eq_true_eq] at hp
      unfold findThread
      rw [hp]
      exact h

theorem applyRename_streamingThreads (st : ChatViewState) (t : ChatThread) :
    (applyRename st t).streamingThreads = st.streamingThreads := by
  unfold applyRename
  split <;> rfl

theorem findThread_applyRename {st : ChatViewState} {t : ChatThread}
    (hfind : findThread st.threads t.id = some t) :
    findThread (applyRename st t).threads t.id =
      some { t with name := renamedName st t } := by
  unfold applyRename renamedName
  rcases Decidable.em ((t.history.isEmpty && isDefaultName t.name) = true) with h | h
  · rw [if_pos h, if_pos h]
    show findThread (updateThread st.threads t.id
      (fun th => { th with name := autoRenameName (jsTrim st.inputValue) })) t.id = _
    rw [findThread_updateThread st.threads t.id
      (fun th => { th with name := autoRenameName (jsTrim st.inputValue) })
      (fun x => rfl), hfind]
    rfl
  · rw [if_neg h, if_neg h]
    show findThread st.threads t.id = some { t with name := t.name }
    rw [hfind]

theorem sendMessageBody_searchError (st : ChatViewState) (env : SendEnv)
    (t : ChatThread) (e : String) (hsv : env.searchResult = .error e) :
    sendMessageBody st env t =
      ⟨clearStreaming (startStreaming (applyRename st t) t.id) t.id, false⟩ := by
  unfold sendMessageBody
  rw [hsv]

theorem sendMessageBody_emptyDocs (st : ChatViewState) (env : SendEnv)
    (t : ChatThread) (hsv : env.searchResult = .ok []) :
    sendMessageBody st env t =
      ⟨clearStreaming (startStreaming (applyRename st t) t.id) t.id, false⟩ := by
  unfold sendMessageBody
  rw [hsv]
  exact rfl

theorem sendMessageBody_llmError (st : ChatViewState) (env : SendEnv)
    (t : ChatThread) (d : SearchResult) (ds : List SearchResult) (e : String)
    (hsv : env.searchResult = .ok (d :: ds)) (hlm : env.llmResult = .error e) :
    sendMessageBody st env t =
      ⟨clearStreaming (startStreaming (applyRename st t) t.id) t.id, true⟩ := by
  unfold sendMessageBody
  rw [hsv, hlm]
  exact rfl

theorem sendMessageBody_success (st : ChatViewState) (env : SendEnv)
    (t : ChatThread) (d : SearchResult) (ds : List SearchResult) (resp : String)
    (hsv : env.searchResult = .ok (d :: ds)) (hlm : env.llmResult = .ok resp) :
    sendMessageBody st env t =
      ⟨clearStreaming
        (appendHistory (startStreaming (applyRename st t) t.id) t.id
          (jsTrim st.inputValue) (resp ++ buildSourcesText (d :: ds)) env.now)
        t.id, true⟩ := by
  unfold sendMessageBody
  rw [hsv, hlm]
  exact rfl

/-- Where `sendMessage` leaves the current thread and the streaming map,
given that the two early returns did not fire.  The `finally` clears both
streaming markers on every path; history and `updatedAt` change only on the
success path; the name is set by the rename step on every path. -/
theorem sendMessage_characterization (st : ChatViewState) (env : SendEnv)
    (t : ChatThread) (hmsg : jsTrim st.inputValue ≠ "")
    (hcur : getCurrentThread st = some t) :
    (sendMessage st env).state.streamingThreads =
      setFlag (setFlag st.streamingThreads t.id true) t.id false ∧
    (∀ docs resp, env.searchResult = .ok docs → docs ≠ [] →
      env.llmResult = .ok resp →
      findThread (sendMessage st env).state.threads t.id =
        some { t with
                name := renamedName st t,
                isStreaming := false,
                history := t.history ++
                  [⟨"user", jsTrim st.inputValue⟩,
                   ⟨"assistant", resp ++ buildSourcesText docs⟩],
                updatedAt := env.now } ∧
      (sendMessage st env).llmRequested = true) ∧
    ((env.searchResult = .ok [] ∨ (∃ e, env.searchResult = .error e) ∨
        (∃ e, env.llmResult = .error e)) →
      findThread (sendMessage st env).state.threads t.id =
        some { t with name := renamedName st t, isStreaming := false }) := by
  have hfind : findThread st.threads t.id = some t := getCurrentThread_findThread hcur
  have hmain : sendMessage st env = sendMessageBody st env t := by
    unfold sendMessage
    rw [if_neg hmsg, hcur]
  have hone : findThread (startStreaming (applyRename st t) t.id).threads t.id =
      some { t with name := renamedName st t, isStreaming := true } := by
    unfold startStreaming
    show findThread (updateThread (applyRename st t).threads t.id
      (fun th => { th with isStreaming := true })) t.id = _
    rw [findThread_updateThread _ t.id (fun th => { th with isStreaming := true })
      (fun x => rfl), findThread_applyRename hfind]
    rfl
  have hflag2 : (startStreaming (applyRename st t) t.id).streamingThreads =
      setFlag st.streamingThreads t.id true := by
    unfold startStreaming
    show setFlag (applyRename st t).streamingThreads t.id true = _
    rw [applyRename_streamingThreads]
  have hfail : ∀ outcome : SendOutcome,
      outcome = ⟨clearStreaming (startStreaming (applyRename st t) t.id) t.id,
        outcome.llmRequested⟩ →
      outcome.state.streamingThreads =
        setFlag (setFlag st.streamingThreads t.id true) t.id false ∧
      findThread outcome.state.threads t.id =
        some { t with name := renamedName st t, isStreaming := false } := by
    intro outcome hout
    rw [hout]
    constructor
    · show setFlag (startStreaming (applyRename st t) t.id).streamingThreads
        t.id false = _
      rw [hflag2]
    · show findThread (updateThread (startStreaming (applyRename st t) t.id).threads
        t.id (fun th => { th with isStreaming := false })) t.id = _
      rw [findThread_updateThread _ t.id (fun th => { th with isStreaming := false })
        (fun x => rfl), hone]
      rfl
  rcases hsv : env.searchResult with e | docs
  · have heq := sendMessageBody_searchError st env t e hsv
    have hf := hfail (sendMessageBody st env t) (by rw [heq])
    rw [hmain]
    refine ⟨hf.1, ?_, fun _ => hf.2⟩
    intro docs resp hok
    exact Except.noConfusion hok
  · rcases docs with _ | ⟨d, ds⟩
    · have heq := sendMessageBody_emptyDocs st env t hsv
      have hf := hfail (sendMessageBody st env t) (by rw [heq])
      rw [hmain]
      refine ⟨hf.1, ?_, fun _ => hf.2⟩
      intro docs resp hok hne
      injection hok with hinj
      exact absurd hinj.symm hne
    · rcases hlm : env.llmResult with e2 | resp
      · have heq := sendMessageBody_llmError st env t d ds e2 hsv hlm
        have hf := hfail (sendMessageBody st env t) (by rw [heq])
        rw [hmain]
        refine ⟨hf.1, ?_, fun _ => hf.2⟩
        intro docs2 resp hok hne hresp
        exact Except.noConfusion hresp
      · have heq := sendMessageBody_success st env t d ds resp hsv hlm
        rw [hmain, heq]
        refine ⟨?_, ?_, ?_⟩
        · show setFlag (appendHistory (startStreaming (applyRename st t) t.id)
            t.id (jsTrim st.inputValue) (resp ++ buildSourcesText (d :: ds))
            env.now).streamingThreads t.id false = _
          show setFlag (startStreaming (applyRename st t) t.id).streamingThreads
            t.id false = _
          rw [hflag2]
        · intro docs2 resp2 hok hne hresp
          injection hok with hinj
          subst hinj
          injection hresp with hinj2
          subst hinj2
          refine ⟨?_, rfl⟩
          show findThread (updateThread (appendHistory
            (startStreaming (applyRename st t) t.id) t.id (jsTrim st.inputValue)
            (resp ++ buildSourcesText (d :: ds)) env.now).threads
            t.id (fun th => { th with isStreaming := false })) t.id = _
          rw [findThread_updateThread _ t.id
            (fun th => { th with isStreaming := false }) (fun x => rfl)]
          show ((findThread (updateThread
            (startStreaming (applyRename st t) t.id).threads t.id
            (fun th => { th with
              history := th.history ++
                [⟨"user", jsTrim st.inputValue⟩,
                 ⟨"assistant", resp ++ buildSourcesText (d :: ds)⟩],
              updatedAt := env.now })) t.id).map
            (fun th => { th with isStreaming := false })) = _
          rw [findThread_updateThread _ t.id
            (fun th => { th with
              history := th.history ++
                [⟨"user", jsTrim st.inputValue⟩,
                 ⟨"assistant", resp ++ buildSourcesText (d :: ds)⟩],
              updatedAt := env.now }) (fun x => rfl), hone]
          rfl
        · intro hbad
          rcases hbad with hbad | ⟨e, hbad⟩ | ⟨e, hbad⟩
          · injection hbad with hinj
            exact absurd hinj (List.cons_ne_nil d ds)
          · exact Except.noConfusion hbad
          · exact Except.noConfusion hbad

/-- Counterexample to claim C2 as stated: a thread whose streaming flag is
already set (both in `streamingThreads` and on the thread) is **not**
rejected by `sendMessage` — the function contains no flag check.  With the
flag set, a completion request is still submitted and two messages are still
appended to the thread's history. -/
theorem C2_flag_not_checked_counterexample :
    getFlag (ChatViewState.mk [⟨"t1", "Chat 1", [], 0, 0, true⟩] (some "t1")
        [("t1", true)] "hello").streamingThreads "t1" = some true ∧
    (sendMessage
      ⟨[⟨"t1", "Chat 1", [], 0, 0, true⟩], some "t1", [("t1", true)], "hello"⟩
      ⟨.ok [⟨"a.md", "body", 0⟩], .ok "answer", 7⟩).llmRequested = true ∧
    ((sendMessage
      ⟨[⟨"t1", "Chat 1", [], 0, 0, true⟩], some "t1", [("t1", true)], "hello"⟩
      ⟨.ok [⟨"a.md", "body", 0⟩], .ok "answer", 7⟩).state.threads.map
        fun th => th.history.length) = [2] := by
  refine ⟨rfl, ?_, ?_⟩
  · decide
  · decide

/-- Amended claim C2: `sendMessage` performs no streaming-flag check at all;
it rejects only an empty (trimmed) input or a missing current thread.
Whenever those guards pass, retrieval succeeds with at least one document and
the stream completes, a completion request is submitted and the user and
assistant messages are appended — with **no hypothesis on the thread's
streaming flag**, which is what permits this even on a thread already
streaming (overlap is prevented only by the UI disabling the input while the
active thread streams; distinct threads may stream concurrently, as the
claim's second half says). -/
theorem C2_no_per_thread_guard :
    ∀ st env t docs resp,
      jsTrim st.inputValue ≠ "" →
      getCurrentThread st = some t →
      env.searchResult = .ok docs → docs ≠ [] → env.llmResult = .ok resp →
      (sendMessage st env).llmRequested = true ∧
      findThread (sendMessage st env).state.threads t.id =
        some { t with
                name := renamedName st t,
                isStreaming := false,
                history := t.history ++
                  [⟨"user", jsTrim st.inputValue⟩,
                   ⟨"assistant", resp ++ buildSourcesText docs⟩],
                updatedAt := env.now } := by
  intro st env t docs resp hmsg hcur hok hne hresp
  have hc := (sendMessage_characterization st env t hmsg hcur).2.1 docs resp
    hok hne hresp
  exact ⟨hc.2, hc.1⟩

/-- Witness for C2's amended theorem: the concrete state of the
counterexample (flag set) still submits the request. -/
theorem C2_no_per_thread_guard_witness :
    (sendMessage
      ⟨[⟨"t1", "Chat 1", [], 0, 0, true⟩], some "t1", [("t1", true)], "hello"⟩
      ⟨.ok [⟨"a.md", "body", 0⟩], .ok "answer", 7⟩).llmRequested = true :=
  (C2_no_per_thread_guard
    ⟨[⟨"t1", "Chat 1", [], 0, 0, true⟩], some "t1", [("t1", true)], "hello"⟩
    ⟨.ok [⟨"a.md", "body", 0⟩], .ok "answer", 7⟩
    ⟨"t1", "Chat 1", [], 0, 0, true⟩ [⟨"a.md", "body", 0⟩] "answer"
    (by decide) (by decide) rfl (List.cons_ne_nil _ _) rfl).1

/-- Claim C10: `sendMessage` is atomic on failure — when retrieval returns no
documents, or retrieval or the streaming call throws, the thread's persisted
history is unchanged — and in every outcome (success, empty retrieval, or
error) both streaming markers are cleared before the function returns. -/
theorem C10_failure_atomicity_and_flag_clear :
    ∀ st env t,
      jsTrim st.inputValue ≠ "" →
      getCurrentThread st = some t →
      ((env.searchResult = .ok [] ∨ (∃ e, env.searchResult = .error e) ∨
          (∃ e, env.llmResult = .error e)) →
        ∃ th, findThread (sendMessage st env).state.threads t.id = some th ∧
          th.history = t.history) ∧
      getFlag (sendMessage st env).state.streamingThreads t.id = some false ∧
      (∃ th, findThread (sendMessage st env).state.threads t.id = some th ∧
        th.isStreaming = false) := by
  intro st env t hmsg hcur
  have hc := sendMessage_characterization st env t hmsg hcur
  refine ⟨fun hbad => ⟨_, hc.2.2 hbad, rfl⟩, ?_, ?_⟩
  · rw [hc.1]
    exact getFlag_setFlag _ _ _
  · rcases hsv : env.searchResult with e | docs
    · exact ⟨_, hc.2.2 (Or.inr (Or.inl ⟨e, hsv⟩)), rfl⟩
    · rcases docs with _ | ⟨d, ds⟩
      · exact ⟨_, hc.2.2 (Or.inl hsv), rfl⟩
      · rcases hlm : env.llmResult with e2 | resp
        · exact ⟨_, hc.2.2 (Or.inr (Or.inr ⟨e2, hlm⟩)), rfl⟩
        · exact ⟨_, (hc.2.1 (d :: ds) resp hsv (List.cons_ne_nil d ds) hlm).1, rfl⟩

/-- Witness for C10 at a concrete state and an empty-retrieval environment:
the history stays empty and the flag ends cleared. -/
theorem C10_failure_atomicity_witness :
    (∃ th, findThread (sendMessage
        ⟨[⟨"t1", "Chat 1", [⟨"user", "old"⟩], 0, 0, false⟩], some "t1", [],
          "hello"⟩ ⟨.ok [], .ok "unused", 3⟩).state.threads "t1" = some th ∧
      th.history = [⟨"user", "old"⟩]) ∧
    getFlag (sendMessage
        ⟨[⟨"t1", "Chat 1", [⟨"user", "old"⟩], 0, 0, false⟩], some "t1", [],
          "hello"⟩ ⟨.ok [], .ok "unused", 3⟩).state.streamingThreads "t1" =
      some false :=
  ⟨(C10_failure_atomicity_and_flag_clear
      ⟨[⟨"t1", "Chat 1", [⟨"user", "old"⟩], 0, 0, false⟩], some "t1", [], "hello"⟩
      ⟨.ok [], .ok "unused", 3⟩ ⟨"t1", "Chat 1", [⟨"user", "old"⟩], 0, 0, false⟩
      (by decide) (by decide)).1 (Or.inl rfl),
   (C10_failure_atomicity_and_flag_clear
      ⟨[⟨"t1", "Chat 1", [⟨"user", "old"⟩], 0, 0, false⟩], some "t1", [], "hello"⟩
      ⟨.ok [], .ok "unused", 3⟩ ⟨"t1", "Chat 1", [⟨"user", "old"⟩], 0, 0, false⟩
      (by decide) (by decide)).2.1⟩

/-- Counterexample to claim C8 as stated: a 51-character first message on a
default-named thread renames the thread to its first **47** characters plus
an ellipsis (a 50-character name), not to its first 50 characters plus an
ellipsis as the claim says. -/
theorem C8_rename_47_not_50_counterexample :
    ((sendMessage
      ⟨[⟨"t1", "Chat 1", [], 0, 0, false⟩], some "t1", [],
        String.mk (List.replicate 51 'a')⟩
      ⟨.ok [], .ok "r", 0⟩).state.threads.map fun th => th.name) =
      [String.mk (List.replicate 47 'a') ++ "..."] ∧
    String.mk (List.replicate 47 'a') ++ "..." ≠
      String.mk (List.replicate 50 'a') ++ "..." := by
  refine ⟨?_, ?_⟩
  · decide
  · decide

/-- Amended claim C8: on every send with a non-empty trimmed message and an
existing current thread, the thread is renamed iff its history is empty and
its name still matches `Chat N`; the new name is the message itself when it
is at most 50 characters, and its first 47 characters followed by `...`
when longer.  The rename is keyed on the empty history and the default-name
pattern (not a once-only latch), so it cannot recur after any send that
appended messages. -/
theorem C8_auto_rename_rule :
    ∀ st env t,
      jsTrim st.inputValue ≠ "" →
      getCurrentThread st = some t →
      ∃ th, findThread (sendMessage st env).state.threads t.id = some th ∧
        th.name =
          (if t.history = [] ∧ isDefaultName t.name = true then
            (if 50 < (jsTrim st.inputValue).length then
              String.mk ((jsTrim st.inputValue).data.take 47) ++ "..."
            else jsTrim st.inputValue)
          else t.name) := by
  intro st env t hmsg hcur
  have hc := sendMessage_characterization st env t hmsg hcur
  have hname : renamedName st t =
      (if t.history = [] ∧ isDefaultName t.name = true then
        (if 50 < (jsTrim st.inputValue).length then
          String.mk ((jsTrim st.inputValue).data.take 47) ++ "..."
        else jsTrim st.inputValue)
      else t.name) := by
    unfold renamedName autoRenameName
    rcases Decidable.em (t.history = [] ∧ isDefaultName t.name = true) with h | h
    · rw [if_pos h, if_pos (by simp [List.isEmpty_iff, h.1, h.2])]
    · rw [if_neg h, if_neg (by
        intro hb
        rw [Bool.and_eq_true, List.isEmpty_iff] at hb
        exact h hb)]
  rcases hsv : env.searchResult with e | docs
  · exact ⟨_, hc.2.2 (Or.inr (Or.inl ⟨e, hsv⟩)), hname⟩
  · rcases docs with _ | ⟨d, ds⟩
    · exact ⟨_, hc.2.2 (Or.inl hsv), hname⟩
    · rcases hlm : env.llmResult with e2 | resp
      · exact ⟨_, hc.2.2 (Or.inr (Or.inr ⟨e2, hlm⟩)), hname⟩
      · exact ⟨_, (hc.2.1 (d :: ds) resp hsv (List.cons_ne_nil d ds) hlm).1, hname⟩

/-- Witness for C8's amended theorem: a short first message becomes the
thread name unchanged. -/
theorem C8_auto_rename_rule_witness :
    ∃ th, findThread (sendMessage
        ⟨[⟨"t1", "Chat 1", [], 0, 0, false⟩], some "t1", [], "hi"⟩
        ⟨.ok [], .ok "r", 0⟩).state.threads "t1" = some th ∧
      th.name =
        (if ([] : List ChatMessage) = [] ∧ isDefaultName "Chat 1" = true then
          (if 50 < (jsTrim "hi").length then
            String.mk ((jsTrim "hi").data.take 47) ++ "..."
          else jsTrim "hi")
        else "Chat 1") :=
  C8_auto_rename_rule
    ⟨[⟨"t1", "Chat 1", [], 0, 0, false⟩], some "t1", [], "hi"⟩
    ⟨.ok [], .ok "r", 0⟩ ⟨"t1", "Chat 1", [], 0, 0, false⟩
    (by decide) (by decide)

end AskVault
